import Mathlib

/-!
Shallow embedding of the Parkinson symptom-detection core
(`SymptomDetector.cpp`, `FFTProcessor.cpp`) over the real numbers.

Arrays of `float` are modelled as `List ℝ`; the `size` parameter that
accompanies every raw pointer in the source is the length of the list.
Float arithmetic is modelled by exact real arithmetic. `bool` results of
condition chains are modelled as `Prop`.

Definitions in the first part are translated from the source; definitions
whose doc comment says so follow the specification's wording instead and
exist only to be compared against the source-level definitions.
-/

noncomputable section
open scoped Classical

/-- The mean of an array, `sum / size`, as computed by the accumulation
loops in `SymptomDetector.cpp` (e.g. `meanX` in `analyze`, `mean` in
`detectSteps`, `calculateVariance` and `calculateFOGIntensity`). -/
def listMean (l : List ℝ) : ℝ := l.sum / l.length

/-- DC removal of one accelerometer axis: `processedX[i] = accelX[i] - meanX`
(`analyze`, step 1). -/
def center (l : List ℝ) : List ℝ := l.map (fun v => v - listMean l)

/-- Population variance of a series: mean of squared deviations from the
mean, dividing by the array size, as in the variance loops of
`calculateVariance`, `calculateFOGIntensity` and (pre-sqrt) `detectSteps`. -/
def popVar (l : List ℝ) : ℝ := (l.map (fun v => (v - listMean l) ^ 2)).sum / l.length

/-- The magnitude series `mag[i] = sqrt(x[i]^2 + y[i]^2 + z[i]^2)` built by
the loops in `analyze` (step 2), `analyzeGait` and `calculateVariance`.
The loop bound (the `size` argument) is the length of the first array. -/
def mag3 (xs ys zs : List ℝ) : List ℝ :=
  (List.range xs.length).map (fun i =>
    Real.sqrt (xs.getD i 0 ^ 2 + ys.getD i 0 ^ 2 + zs.getD i 0 ^ 2))

/-- `SymptomDetector::calculateVariance`: magnitude of the three axes,
then population variance of that series. -/
def calculateVariance (x y z : List ℝ) : ℝ := popVar (mag3 x y z)

/-- `SymptomDetector::detectSteps`: adaptive threshold
`mean + 0.5 * stddev`, then one pass over `i = 1 .. size-2` counting
indices where the magnitude crosses the threshold upward (`isAbove` and
not `wasAbove`, with `wasAbove` initialised to `false`) and is a strict
local maximum.  The fold state is `(steps, wasAbove)`. -/
def detectSteps (accelMagnitude : List ℝ) : ℕ :=
  let n := accelMagnitude.length
  let m := fun i => accelMagnitude.getD i 0
  let threshold := listMean accelMagnitude + Real.sqrt (popVar accelMagnitude) * 0.5
  ((List.range' 1 (n - 2)).foldl
    (fun (acc : ℕ × Prop) i =>
      (if m i > threshold ∧ ¬ acc.2 ∧ m i > m (i - 1) ∧ m i > m (i + 1)
        then acc.1 + 1 else acc.1,
       m i > threshold))
    (0, False)).1

/-- `SymptomDetector::analyzeGait`: magnitude series of the raw
accelerometer, `detectSteps`, then `cadence = steps / 3.0f`
(the divisor 3.0 is hard-coded in the source). -/
def analyzeGaitCadence (accelX accelY accelZ : List ℝ) : ℝ :=
  (detectSteps (mag3 accelX accelY accelZ) : ℝ) / 3

/-- `SymptomDetector::detectFOG` with the member variable `cadence` passed
explicitly.  `thirdSize = size / 3`; the first third is the first
`thirdSize` entries, the last third starts at pointer offset
`2 * thirdSize` and has `thirdSize` entries. -/
def detectFOG (cadence : ℝ) (accelX accelY accelZ gyroX gyroY gyroZ : List ℝ) : Prop :=
  let thirdSize := accelX.length / 3
  let accelVarianceFirst :=
    calculateVariance (accelX.take thirdSize) (accelY.take thirdSize) (accelZ.take thirdSize)
  let accelVarianceLast :=
    calculateVariance ((accelX.drop (2 * thirdSize)).take thirdSize)
      ((accelY.drop (2 * thirdSize)).take thirdSize)
      ((accelZ.drop (2 * thirdSize)).take thirdSize)
  let gyroVarianceLast :=
    calculateVariance ((gyroX.drop (2 * thirdSize)).take thirdSize)
      ((gyroY.drop (2 * thirdSize)).take thirdSize)
      ((gyroZ.drop (2 * thirdSize)).take thirdSize)
  cadence > 0.3 ∧ (accelVarianceLast < 0.01 ∧ gyroVarianceLast < 0.01) ∧
    accelVarianceLast < accelVarianceFirst * 0.5

/-- `SymptomDetector::calculateFOGIntensity`: population variance of the
latter half `[size/2, size)` of the magnitude series (the full-window
variance computed first in the source is never used), then
`min(1, max(0, (0.005 - varianceHalf) / 0.005))`. -/
def calculateFOGIntensity (accelMagnitude : List ℝ) : ℝ :=
  let varianceHalf := popVar (accelMagnitude.drop (accelMagnitude.length / 2))
  min 1 (max 0 ((0.005 - varianceHalf) / 0.005))

/-- The twiddle factor `std::polar(1.0f, -2*pi*k/n) = exp(-2*pi*i*k/n)`
used in the combine loop of `FFTProcessor::fft`. -/
def twiddle (n k : ℕ) : ℂ := Complex.exp (((-(2 * Real.pi * k / n) : ℝ) : ℂ) * Complex.I)

/-- The `pow2` computed by `FFTProcessor::fft`:
`pow2 = 1; while (pow2 < n) pow2 *= 2;`, i.e. the smallest power of two
that is at least `n` (with the convention `nextPow2 0 = 1`, as the loop
does not run for `n = 0`). -/
def nextPow2 (n : ℕ) : ℕ := 2 ^ Nat.clog 2 n

/-- The radix-2 path of `FFTProcessor::fft`: for `n <= 1` return the input;
otherwise split into even- and odd-indexed samples (`n/2` entries each, so
for odd `n` the last sample is dropped, exactly as the source's
`even[i] = x[2i], odd[i] = x[2i+1]` loops do), recurse, and combine with
twiddle factors.  The zero-padding branch of the source is not part of
this function: it executes at most once, at the top level, because the
padded length is a power of two and all recursive calls then stay powers
of two; it is modelled separately in `fftC`. -/
def fftP2 (x : List ℂ) : List ℂ :=
  if h : x.length ≤ 1 then x
  else
    let n := x.length
    let evenPart := fftP2 ((List.range (n / 2)).map (fun i => x.getD (2 * i) 0))
    let oddPart := fftP2 ((List.range (n / 2)).map (fun i => x.getD (2 * i + 1) 0))
    ((List.range (n / 2)).map (fun k => evenPart.getD k 0 + twiddle n k * oddPart.getD k 0)) ++
    ((List.range (n / 2)).map (fun k => evenPart.getD k 0 - twiddle n k * oddPart.getD k 0))
termination_by x.length
decreasing_by
  all_goals simp only [List.length_map, List.length_range]; omega

/-- `FFTProcessor::fft` as called on a freshly filled buffer: return the
input unchanged when `n <= 1`; run the radix-2 recursion directly when `n`
is already a power of two; otherwise zero-pad to `nextPow2 n`, transform,
and keep the first `n` bins. -/
def fftC (x : List ℂ) : List ℂ :=
  if x.length ≤ 1 then x
  else if nextPow2 x.length = x.length then fftP2 x
  else (fftP2 (x ++ List.replicate (nextPow2 x.length - x.length) 0)).take x.length

/-- `FFTProcessor::process`: copy the real samples into a complex buffer
(imaginary parts zero) and transform in place. -/
def process (data : List ℝ) : List ℂ := fftC (data.map Complex.ofReal)

/-- `FFTProcessor::getFrequency`: `bin * samplingFreq / size`. -/
def getFrequency (bin : ℕ) (samplingFreq : ℝ) (size : ℕ) : ℝ := bin * samplingFreq / size

/-- `FFTProcessor::getMagnitude`: absolute value of the stored complex bin;
out-of-range bins yield `0` (in the model, `getD` returns the default `0`,
whose absolute value is `0`, matching the source's bounds check). -/
def getMagnitude (fftResult : List ℂ) (bin : ℕ) : ℝ := Complex.abs (fftResult.getD bin 0)

/-- The accumulation loop of single-axis
`SymptomDetector::calculateIntensity`: over bins `i < size / 2` whose
frequency lies in `[minFreq, maxFreq]`, fold up
`(maxEnergy, totalEnergy, count)` starting from `(0, 0, 0)`. -/
def bandScan (spectrum : List ℂ) (size : ℕ) (minFreq maxFreq : ℝ) : ℝ × ℝ × ℕ :=
  (List.range (size / 2)).foldl
    (fun acc i =>
      if minFreq ≤ getFrequency i 52 size ∧ getFrequency i 52 size ≤ maxFreq then
        (max acc.1 (getMagnitude spectrum i), acc.2.1 + getMagnitude spectrum i, acc.2.2 + 1)
      else acc)
    (0, 0, 0)

/-- Single-axis `SymptomDetector::calculateIntensity`: FFT at 52 Hz, scan
the band, return `0` if no bin is in range, otherwise
`min(1, (maxEnergy*0.8 + avgEnergy*0.2) / 1.2)`. -/
def calculateIntensity1 (data : List ℝ) (minFreq maxFreq : ℝ) : ℝ :=
  let s := bandScan (process data) data.length minFreq maxFreq
  if s.2.2 = 0 then 0
  else min 1 ((s.1 * 0.8 + s.2.1 / s.2.2 * 0.2) / 1.2)

/-- Three-axis `SymptomDetector::calculateIntensity`:
`std::max({intensityX, intensityY, intensityZ})`. -/
def calculateIntensity3 (dataX dataY dataZ : List ℝ) (minFreq maxFreq : ℝ) : ℝ :=
  max (max (calculateIntensity1 dataX minFreq maxFreq) (calculateIntensity1 dataY minFreq maxFreq))
    (calculateIntensity1 dataZ minFreq maxFreq)

/-- The `SymptomResults` struct of `SymptomDetector.h`; the `bool` flags
are modelled as propositions. -/
structure SymptomResults where
  tremorDetected : Prop
  tremorIntensity : ℝ
  dyskinesiaDetected : Prop
  dyskinesiaIntensity : ℝ
  fogDetected : Prop
  fogIntensity : ℝ

/-- The private state of a `SymptomDetector` object:
`lastStepTime`, `stepCount`, `cadence`. -/
structure DetectorState where
  lastStepTime : ℝ
  stepCount : ℤ
  cadence : ℝ

/-- `SymptomDetector::analyze` on a detector in state `st`: DC removal,
magnitude buffer, tremor (3-5 Hz) and dyskinesia (5-7 Hz) intensities on
the centered axes with the shared 0-2 Hz background, gait analysis
(which overwrites the `cadence` member), FOG decision and FOG intensity.
Returns the `SymptomResults` together with the detector state on return
(only `cadence` is ever written). -/
def analyze (st : DetectorState) (accelX accelY accelZ gyroX gyroY gyroZ : List ℝ) :
    SymptomResults × DetectorState :=
  let processedX := center accelX
  let processedY := center accelY
  let processedZ := center accelZ
  let accelMagnitude := mag3 accelX accelY accelZ
  let tremorIntensity := calculateIntensity3 processedX processedY processedZ 3 5
  let backgroundNoise := calculateIntensity3 processedX processedY processedZ 0 2
  let dyskinesiaIntensity := calculateIntensity3 processedX processedY processedZ 5 7
  let st1 : DetectorState := { st with cadence := analyzeGaitCadence accelX accelY accelZ }
  ({ tremorDetected := tremorIntensity > 0.25 ∧ tremorIntensity > backgroundNoise * 1.2,
     tremorIntensity := tremorIntensity,
     dyskinesiaDetected := dyskinesiaIntensity > 0.25 ∧ dyskinesiaIntensity > backgroundNoise * 1.2,
     dyskinesiaIntensity := dyskinesiaIntensity,
     fogDetected := detectFOG st1.cadence accelX accelY accelZ gyroX gyroY gyroZ,
     fogIntensity := calculateFOGIntensity accelMagnitude }, st1)

/-!  Specification-side definitions.  These follow the wording of the
specification and of the claims, independently of the source translation
above; the claim theorems compare the two. -/

/-- Specification-side definition (spec section 4.1): the discrete Fourier
transform entry `X[k] = sum over t of x[t] * exp(-2*pi*i*k*t/N)`. -/
def dftEntry (x : List ℂ) (k : ℕ) : ℂ :=
  ∑ t in Finset.range x.length, x.getD t 0 * twiddle x.length (k * t)

/-- Specification-side definition: the full DFT `X[0..N)` of a length-`N`
complex sequence. -/
def dft (x : List ℂ) : List ℂ := (List.range x.length).map (dftEntry x)

/-- Specification-side definition (spec section 4.4 and claim C2): the
population variance of the per-sample magnitude series of a 3-axis block,
taken over the index window `[off, off + len)` of the full channels and
dividing by the segment length. -/
def blockVarSpec (x y z : ℕ → ℝ) (off len : ℕ) : ℝ :=
  (∑ i in Finset.range len,
      (Real.sqrt (x (off + i) ^ 2 + y (off + i) ^ 2 + z (off + i) ^ 2) -
        (∑ j in Finset.range len,
            Real.sqrt (x (off + j) ^ 2 + y (off + j) ^ 2 + z (off + j) ^ 2)) / len) ^ 2) / len

/-- Specification-side definition (spec section 4.2 and claim C4): the bins
`k` in `[0, N/2)` whose frequency `k * 52 / N` lies in
`[minFreq, maxFreq]` inclusive. -/
def selBins (n : ℕ) (minFreq maxFreq : ℝ) : List ℕ :=
  (List.range (n / 2)).filter
    (fun k => decide (minFreq ≤ (k : ℝ) * 52 / n ∧ (k : ℝ) * 52 / n ≤ maxFreq))

/-- Specification-side definition (claim C5's step condition): index `i` is
a step peak when `mag[i] > T`, `mag[i] > mag[i-1]`, `mag[i] > mag[i+1]`
and `mag[i-1] <= T`, with `T = mean + 0.5 * population standard
deviation` of the magnitude series. -/
def stepIndexSpec (mag : List ℝ) (i : ℕ) : Prop :=
  mag.getD i 0 > listMean mag + 0.5 * Real.sqrt (popVar mag) ∧
  mag.getD i 0 > mag.getD (i - 1) 0 ∧
  mag.getD i 0 > mag.getD (i + 1) 0 ∧
  mag.getD (i - 1) 0 ≤ listMean mag + 0.5 * Real.sqrt (popVar mag)

/-- Specification-side definition (claim C5): the number of step peaks over
the interior indices `i` in `(0, N-1)`, i.e. `i = 1 .. N-2`. -/
def stepsSpec (mag : List ℝ) : ℕ :=
  ((List.range' 1 (mag.length - 2)).filter (fun i => decide (stepIndexSpec mag i))).length

/-- Specification-side definition (claim C5): `cadence = steps / (N / 52)`
with the steps counted by `stepsSpec`. -/
def cadenceSpec (accelX accelY accelZ : List ℝ) : ℝ :=
  (stepsSpec (mag3 accelX accelY accelZ) : ℝ) / ((accelX.length : ℝ) / 52)

/-- The step condition the source actually implements (amended claim C5):
at `i = 1` the upward-crossing requirement `mag[i-1] <= T` is not checked,
because `wasAbove` is initialised to `false` in `detectSteps`. -/
def stepIndexAmended (mag : List ℝ) (i : ℕ) : Prop :=
  mag.getD i 0 > listMean mag + Real.sqrt (popVar mag) * 0.5 ∧
  mag.getD i 0 > mag.getD (i - 1) 0 ∧
  mag.getD i 0 > mag.getD (i + 1) 0 ∧
  (i = 1 ∨ mag.getD (i - 1) 0 ≤ listMean mag + Real.sqrt (popVar mag) * 0.5)

/-- The `combinedEnergy` local of single-axis
`SymptomDetector::calculateIntensity`:
`maxEnergy * 0.8 + avgEnergy * 0.2` over the scanned band. -/
def bandCombined (data : List ℝ) (minFreq maxFreq : ℝ) : ℝ :=
  let s := bandScan (process data) data.length minFreq maxFreq
  s.1 * 0.8 + s.2.1 / s.2.2 * 0.2

/-!  Helper lemmas about lists, sums and twiddle factors. -/

theorem getD_range_map {α : Type*} (f : ℕ → α) (n k : ℕ) (d : α) (h : k < n) :
    ((List.range n).map f).getD k d = f k := by
  rw [List.getD_eq_getElem _ _ (by simpa using h)]
  simp

theorem getD_replicate_zero {α : Type*} [Zero α] (n i : ℕ) :
    (List.replicate n (0 : α)).getD i 0 = 0 := by
  rcases lt_or_le i n with h | h
  · rw [List.getD_eq_getElem _ _ (by simpa using h)]; simp
  · rw [List.getD_eq_default _ _ (by simpa using h)]

theorem sum_map_range {M : Type*} [AddCommMonoid M] (f : ℕ → M) (n : ℕ) :
    ((List.range n).map f).sum = ∑ i in Finset.range n, f i := by
  induction n with
  | zero => simp
  | succ n ih => rw [List.range_succ, List.map_append, List.sum_append, ih,
      Finset.sum_range_succ]; simp

theorem sum_range_two_mul {M : Type*} [AddCommMonoid M] (m : ℕ) (f : ℕ → M) :
    ∑ t in Finset.range (2 * m), f t
      = ∑ s in Finset.range m, f (2 * s) + ∑ s in Finset.range m, f (2 * s + 1) := by
  induction m with
  | zero => simp
  | succ m ih =>
    rw [show 2 * (m + 1) = 2 * m + 1 + 1 by ring, Finset.sum_range_succ, Finset.sum_range_succ, ih,
        Finset.sum_range_succ, Finset.sum_range_succ]
    abel

theorem twiddle_add (n a b : ℕ) : twiddle n (a + b) = twiddle n a * twiddle n b := by
  unfold twiddle
  rw [← Complex.exp_add]
  congr 1
  push_cast
  ring

theorem twiddle_zero (n : ℕ) : twiddle n 0 = 1 := by
  unfold twiddle
  simp

theorem twiddle_two_mul (m j : ℕ) : twiddle (2 * m) (2 * j) = twiddle m j := by
  unfold twiddle
  rcases eq_or_ne m 0 with hm | hm
  · simp [hm]
  · congr 2
    have hm' : (m : ℝ) ≠ 0 := Nat.cast_ne_zero.mpr hm
    push_cast
    field_simp
    ring

theorem twiddle_sign (m t : ℕ) (hm : m ≠ 0) : twiddle (2 * m) (m * t) = (-1) ^ t := by
  unfold twiddle
  have hm' : (m : ℝ) ≠ 0 := Nat.cast_ne_zero.mpr hm
  have harg : (-(2 * Real.pi * (m * t : ℕ) / (2 * m : ℕ)) : ℝ) = -(Real.pi * t) := by
    push_cast
    field_simp
    ring
  rw [harg]
  have : (((-(Real.pi * t) : ℝ) : ℂ)) * Complex.I = (t : ℂ) * (-((Real.pi : ℂ) * Complex.I)) := by
    push_cast
    ring
  rw [this, Complex.exp_nat_mul, Complex.exp_neg, Complex.exp_pi_mul_I]
  norm_num

theorem dft_length (x : List ℂ) : (dft x).length = x.length := by simp [dft]

theorem dftEntry_split (x : List ℂ) (m : ℕ) (hx : x.length = 2 * m) (k : ℕ) :
    dftEntry x k =
      (∑ s in Finset.range m, x.getD (2 * s) 0 * twiddle m (k * s)) +
      twiddle (2 * m) k * ∑ s in Finset.range m, x.getD (2 * s + 1) 0 * twiddle m (k * s) := by
  unfold dftEntry
  rw [hx, sum_range_two_mul]
  congr 1
  · refine Finset.sum_congr rfl (fun s _ => ?_)
    rw [show k * (2 * s) = 2 * (k * s) by ring, twiddle_two_mul]
  · rw [Finset.mul_sum]
    refine Finset.sum_congr rfl (fun s _ => ?_)
    rw [show k * (2 * s + 1) = 2 * (k * s) + k by ring, twiddle_add, twiddle_two_mul]
    ring

theorem dftEntry_split_shift (x : List ℂ) (m : ℕ) (hm : m ≠ 0) (hx : x.length = 2 * m)
    (k : ℕ) :
    dftEntry x (m + k) =
      (∑ s in Finset.range m, x.getD (2 * s) 0 * twiddle m (k * s)) -
      twiddle (2 * m) k * ∑ s in Finset.range m, x.getD (2 * s + 1) 0 * twiddle m (k * s) := by
  unfold dftEntry
  rw [hx]
  have h1 : ∀ t, x.getD t 0 * twiddle (2 * m) ((m + k) * t)
      = x.getD t 0 * ((-1) ^ t * twiddle (2 * m) (k * t)) := by
    intro t
    rw [show (m + k) * t = m * t + k * t by ring, twiddle_add, twiddle_sign m t hm]
  simp only [h1]
  rw [sum_range_two_mul]
  have h2 : ∀ s, x.getD (2 * s) 0 * ((-1 : ℂ) ^ (2 * s) * twiddle (2 * m) (k * (2 * s)))
      = x.getD (2 * s) 0 * twiddle m (k * s) := by
    intro s
    rw [pow_mul, show k * (2 * s) = 2 * (k * s) by ring, twiddle_two_mul]
    norm_num
  have h3 : ∀ s,
      x.getD (2 * s + 1) 0 * ((-1 : ℂ) ^ (2 * s + 1) * twiddle (2 * m) (k * (2 * s + 1)))
      = -(x.getD (2 * s + 1) 0 * twiddle m (k * s) * twiddle (2 * m) k) := by
    intro s
    rw [pow_succ, pow_mul, show k * (2 * s + 1) = 2 * (k * s) + k by ring, twiddle_add,
      twiddle_two_mul]
    norm_num
    ring
  simp only [h2, h3]
  have h4 : ∑ s in Finset.range m,
      -(x.getD (2 * s + 1) 0 * twiddle m (k * s) * twiddle (2 * m) k)
      = -(twiddle (2 * m) k * ∑ s in Finset.range m, x.getD (2 * s + 1) 0 * twiddle m (k * s)) := by
    rw [Finset.mul_sum, ← Finset.sum_neg_distrib]
    exact Finset.sum_congr rfl (fun s _ => by ring)
  rw [h4]
  ring

theorem fftP2_eq_dft : ∀ (K : ℕ) (x : List ℂ), x.length = 2 ^ K → fftP2 x = dft x := by
  intro K
  induction K with
  | zero =>
    intro x hx
    obtain ⟨a, rfl⟩ := List.length_eq_one.mp (by simpa using hx)
    rw [fftP2]
    simp [dft, dftEntry, twiddle_zero, List.range_succ, Finset.sum_range_one]
  | succ K ih =>
    intro x hx
    have hm : (2 : ℕ) ^ K ≠ 0 := pow_ne_zero _ two_ne_zero
    have hm1 : 1 ≤ (2 : ℕ) ^ K := Nat.one_le_two_pow
    have hlen : x.length = 2 * 2 ^ K := by rw [hx, pow_succ]; ring
    have hnot : ¬ x.length ≤ 1 := by omega
    rw [fftP2, dif_neg hnot]
    have hdiv : x.length / 2 = 2 ^ K := by omega
    dsimp only
    rw [hdiv]
    have hevlen : ((List.range (2 ^ K)).map (fun i => x.getD (2 * i) 0)).length = 2 ^ K := by
      simp
    have hodlen : ((List.range (2 ^ K)).map (fun i => x.getD (2 * i + 1) 0)).length = 2 ^ K := by
      simp
    rw [ih _ hevlen, ih _ hodlen]
    have hev : ∀ k < 2 ^ K,
        (dft ((List.range (2 ^ K)).map (fun i => x.getD (2 * i) 0))).getD k 0
          = ∑ s in Finset.range (2 ^ K), x.getD (2 * s) 0 * twiddle (2 ^ K) (k * s) := by
      intro k hk
      rw [dft, hevlen, getD_range_map _ _ _ _ hk]
      unfold dftEntry
      rw [hevlen]
      exact Finset.sum_congr rfl
        (fun s hs => by rw [getD_range_map _ _ _ _ (Finset.mem_range.mp hs)])
    have hod : ∀ k < 2 ^ K,
        (dft ((List.range (2 ^ K)).map (fun i => x.getD (2 * i + 1) 0))).getD k 0
          = ∑ s in Finset.range (2 ^ K), x.getD (2 * s + 1) 0 * twiddle (2 ^ K) (k * s) := by
      intro k hk
      rw [dft, hodlen, getD_range_map _ _ _ _ hk]
      unfold dftEntry
      rw [hodlen]
      exact Finset.sum_congr rfl
        (fun s hs => by rw [getD_range_map _ _ _ _ (Finset.mem_range.mp hs)])
    have hrhs : dft x = (List.range (2 ^ K)).map (dftEntry x)
        ++ (List.range (2 ^ K)).map (fun k => dftEntry x (2 ^ K + k)) := by
      rw [dft, show x.length = 2 ^ K + 2 ^ K by omega, List.range_add, List.map_append, List.map_map]
      rfl
    rw [hrhs]
    congr 1
    · refine List.map_congr_left (fun k hk => ?_)
      have hk' := List.mem_range.mp hk
      rw [hev k hk', hod k hk', dftEntry_split x (2 ^ K) hlen k, hlen]
    · refine List.map_congr_left (fun k hk => ?_)
      have hk' := List.mem_range.mp hk
      rw [hev k hk', hod k hk', dftEntry_split_shift x (2 ^ K) hm hlen k, hlen]

theorem le_nextPow2 (n : ℕ) : n ≤ nextPow2 n := Nat.le_pow_clog one_lt_two n

theorem nextPow2_pow (k : ℕ) : nextPow2 (2 ^ k) = 2 ^ k := by
  rw [nextPow2, Nat.clog_pow 2 k one_lt_two]

/-- C6.  The FFT engine, fed a real-valued sequence of length `N >= 1`,
returns `N` complex bins; when `N` is a power of two they are exactly the
DFT of the input, and otherwise they are the first `N` bins of the DFT of
the input zero-extended to the next power of two. -/
theorem fft_engine_dft (x : List ℝ) (hx : 1 ≤ x.length) :
    (process x).length = x.length ∧
    ((∃ k, x.length = 2 ^ k) → process x = dft (x.map (Complex.ofReal))) ∧
    (¬ (∃ k, x.length = 2 ^ k) →
      process x = (dft (x.map (Complex.ofReal) ++
        List.replicate (nextPow2 x.length - x.length) 0)).take x.length) := by
  have hlen : (x.map (Complex.ofReal)).length = x.length := by rw [List.length_map]
  have hpow : (∃ k, x.length = 2 ^ k) → process x = dft (x.map (Complex.ofReal)) := by
    rintro ⟨k, hk⟩
    rcases le_or_lt x.length 1 with h1 | h1
    · have hx1 : x.length = 1 := le_antisymm h1 hx
      unfold process fftC
      rw [if_pos (by omega : (x.map (Complex.ofReal)).length ≤ 1)]
      obtain ⟨a, ha⟩ := List.length_eq_one.mp (by rw [hlen, hx1])
      rw [ha]
      simp [dft, dftEntry, twiddle_zero, List.range_succ, Finset.sum_range_one]
    · unfold process fftC
      rw [if_neg (by omega), if_pos (by rw [hlen, hk, nextPow2_pow])]
      exact fftP2_eq_dft k _ (by rw [hlen, hk])
  have hnopow : ¬ (∃ k, x.length = 2 ^ k) →
      process x = (dft (x.map (Complex.ofReal) ++
        List.replicate (nextPow2 x.length - x.length) 0)).take x.length := by
    intro hno
    have hne1 : x.length ≠ 1 := fun h => hno ⟨0, by rw [h]; rfl⟩
    have h2 : 2 ≤ x.length := by omega
    have hne : nextPow2 (x.map (Complex.ofReal)).length
        ≠ (x.map (Complex.ofReal)).length := by
      rw [hlen]
      intro h
      exact hno ⟨Nat.clog 2 x.length, h.symm⟩
    unfold process fftC
    rw [if_neg (by omega), if_neg hne, hlen]
    have hple := le_nextPow2 x.length
    have hplen : (x.map (Complex.ofReal) ++
        List.replicate (nextPow2 x.length - x.length) 0).length = 2 ^ Nat.clog 2 x.length := by
      simp only [List.length_append, List.length_replicate, hlen]
      simp only [nextPow2] at hple ⊢
      omega
    rw [fftP2_eq_dft (Nat.clog 2 x.length) _ hplen]
  refine ⟨?_, hpow, hnopow⟩
  by_cases hp : ∃ k, x.length = 2 ^ k
  · rw [hpow hp, dft_length, hlen]
  · rw [hnopow hp, List.length_take, dft_length]
    simp only [List.length_append, List.length_replicate, hlen]
    omega

/-- Closed witness for `fft_engine_dft` at the concrete input `[1, 2]`. -/
theorem fft_engine_dft_witness :
    (process [(1 : ℝ), 2]).length = [(1 : ℝ), 2].length ∧
    ((∃ k, [(1 : ℝ), 2].length = 2 ^ k) →
      process [(1 : ℝ), 2] = dft ([(1 : ℝ), 2].map (Complex.ofReal))) ∧
    (¬ (∃ k, [(1 : ℝ), 2].length = 2 ^ k) →
      process [(1 : ℝ), 2] = (dft ([(1 : ℝ), 2].map (Complex.ofReal) ++
        List.replicate (nextPow2 [(1 : ℝ), 2].length - [(1 : ℝ), 2].length) 0)).take
          [(1 : ℝ), 2].length) :=
  fft_engine_dft [1, 2] (by simp)

theorem dftEntry_replicate_zero (n k : ℕ) : dftEntry (List.replicate n (0 : ℂ)) k = 0 := by
  unfold dftEntry
  refine Finset.sum_eq_zero (fun t _ => ?_)
  rw [getD_replicate_zero, zero_mul]

theorem dft_replicate_zero (n : ℕ) : dft (List.replicate n (0 : ℂ)) = List.replicate n 0 := by
  unfold dft
  rw [List.length_replicate]
  refine List.eq_replicate_iff.mpr ⟨by simp, fun b hb => ?_⟩
  simp only [List.mem_map] at hb
  obtain ⟨k, _, hk⟩ := hb
  rw [← hk, dftEntry_replicate_zero]

theorem fftC_replicate_zero (n : ℕ) : fftC (List.replicate n (0 : ℂ)) = List.replicate n 0 := by
  unfold fftC
  rcases le_or_lt n 1 with h1 | h1
  · rw [if_pos (by simpa using h1)]
  · rw [if_neg (by simp; omega)]
    by_cases hp : nextPow2 (List.replicate n (0 : ℂ)).length = (List.replicate n (0 : ℂ)).length
    · rw [if_pos hp]
      simp only [List.length_replicate] at hp
      rw [fftP2_eq_dft (Nat.clog 2 n) _ (by simpa [nextPow2] using hp.symm),
        dft_replicate_zero]
    · rw [if_neg hp]
      simp only [List.length_replicate]
      rw [← List.replicate_add]
      have hle := le_nextPow2 n
      rw [show n + (nextPow2 n - n) = nextPow2 n by omega]
      rw [fftP2_eq_dft (Nat.clog 2 n) _ (by simp [nextPow2]), dft_replicate_zero,
        List.take_replicate]
      congr 1
      omega

/-!  Helper lemmas about `foldr max` and the band scan. -/

theorem foldr_max_init_comm (L : List ℝ) (a b : ℝ) :
    L.foldr max (max a b) = max a (L.foldr max b) := by
  induction L with
  | nil => rfl
  | cons c L ih => simp only [List.foldr_cons, ih, max_left_comm]

theorem le_foldr_max (L : List ℝ) (b x : ℝ) (hx : x ∈ L) : x ≤ L.foldr max b := by
  induction L with
  | nil => cases hx
  | cons c L ih =>
    rcases List.mem_cons.mp hx with h | h
    · subst h; exact le_max_left _ _
    · exact le_trans (ih h) (le_max_right _ _)

theorem init_le_foldr_max (L : List ℝ) (b : ℝ) : b ≤ L.foldr max b := by
  induction L with
  | nil => exact le_refl b
  | cons c L ih => exact le_trans ih (le_max_right _ _)

theorem foldr_max_mem_or_init (L : List ℝ) (b : ℝ) :
    L.foldr max b = b ∨ L.foldr max b ∈ L := by
  induction L with
  | nil => exact Or.inl rfl
  | cons c L ih =>
    rcases max_choice c (L.foldr max b) with h | h
    · right; rw [List.foldr_cons, h]; exact List.mem_cons_self c L
    · rcases ih with h' | h'
      · left; rw [List.foldr_cons, h, h']
      · right; rw [List.foldr_cons, h]; exact List.mem_cons_of_mem _ h'

theorem scan_foldl (P : ℕ → Prop) [DecidablePred P] (m : ℕ → ℝ) (l : List ℕ) :
    ∀ (M S : ℝ) (C : ℕ),
      (l.foldl (fun acc i => if P i then (max acc.1 (m i), acc.2.1 + m i, acc.2.2 + 1) else acc)
        (M, S, C))
      = (((l.filter (fun i => decide (P i))).map m).foldr max M,
         S + ((l.filter (fun i => decide (P i))).map m).sum,
         C + (l.filter (fun i => decide (P i))).length) := by
  induction l with
  | nil => intro M S C; simp
  | cons a l ih =>
    intro M S C
    by_cases h : P a
    · simp only [List.foldl_cons, if_pos h, List.filter_cons, decide_eq_true_eq, h, ite_true,
        List.map_cons, List.foldr_cons, List.sum_cons, List.length_cons]
      rw [ih]
      simp only [Prod.mk.injEq]
      refine ⟨?_, by ring, by omega⟩
      rw [max_comm M (m a), foldr_max_init_comm]
    · simp only [List.foldl_cons, if_neg h, List.filter_cons, decide_eq_true_eq, h, ite_false]
      exact ih M S C

theorem bandScan_eq (spectrum : List ℂ) (n : ℕ) (lo hi : ℝ) :
    bandScan spectrum n lo hi =
      (((selBins n lo hi).map (getMagnitude spectrum)).foldr max 0,
       ((selBins n lo hi).map (getMagnitude spectrum)).sum,
       (selBins n lo hi).length) := by
  unfold bandScan selBins getFrequency
  rw [scan_foldl (fun i => lo ≤ (i : ℝ) * 52 / (n : ℝ) ∧ (i : ℝ) * 52 / (n : ℝ) ≤ hi)
    (getMagnitude spectrum) (List.range (n / 2)) 0 0 0]
  norm_num

theorem getMagnitude_nonneg (spectrum : List ℂ) (i : ℕ) : 0 ≤ getMagnitude spectrum i :=
  Complex.abs.nonneg _

theorem band_mags_nonneg (spectrum : List ℂ) (sel : List ℕ) :
    ∀ v ∈ sel.map (getMagnitude spectrum), 0 ≤ v := by
  intro v hv
  obtain ⟨k, _, hk⟩ := List.mem_map.mp hv
  rw [← hk]
  exact getMagnitude_nonneg spectrum k

theorem calculateIntensity1_nonneg (data : List ℝ) (lo hi : ℝ) :
    0 ≤ calculateIntensity1 data lo hi := by
  unfold calculateIntensity1
  rw [bandScan_eq]
  dsimp only
  split
  · exact le_refl 0
  · refine le_min (by norm_num) ?_
    have hpk : (0 : ℝ) ≤ ((selBins data.length lo hi).map
        (getMagnitude (process data))).foldr max 0 := init_le_foldr_max _ 0
    have hsm : (0 : ℝ) ≤ ((selBins data.length lo hi).map
        (getMagnitude (process data))).sum :=
      List.sum_nonneg (band_mags_nonneg _ _)
    have hc : (0 : ℝ) ≤ ((selBins data.length lo hi).length : ℝ) := Nat.cast_nonneg _
    have h12 : (0 : ℝ) < 1.2 := by norm_num
    apply div_nonneg _ (le_of_lt h12)
    have := div_nonneg hsm hc
    nlinarith

theorem calculateIntensity1_le_one (data : List ℝ) (lo hi : ℝ) :
    calculateIntensity1 data lo hi ≤ 1 := by
  unfold calculateIntensity1
  dsimp only
  split
  · norm_num
  · exact min_le_left _ _

theorem calculateIntensity3_nonneg (x y z : List ℝ) (lo hi : ℝ) :
    0 ≤ calculateIntensity3 x y z lo hi :=
  le_trans (calculateIntensity1_nonneg x lo hi)
    (le_trans (le_max_left _ _) (le_max_left _ _))

theorem calculateIntensity3_le_one (x y z : List ℝ) (lo hi : ℝ) :
    calculateIntensity3 x y z lo hi ≤ 1 :=
  max_le (max_le (calculateIntensity1_le_one _ _ _) (calculateIntensity1_le_one _ _ _))
    (calculateIntensity1_le_one _ _ _)

theorem calculateFOGIntensity_nonneg (mag : List ℝ) : 0 ≤ calculateFOGIntensity mag :=
  le_min (by norm_num) (le_max_left _ _)

theorem calculateFOGIntensity_le_one (mag : List ℝ) : calculateFOGIntensity mag ≤ 1 :=
  min_le_left _ _

/-- C4.  The single-axis band-energy estimator selects exactly the bins
`k < N/2` with `minFreq <= k*52/N <= maxFreq`, returns `0` when none
qualifies and otherwise `min(1, (0.8*peak + 0.2*mean)/1.2)` over the
selected-bin magnitudes (the `peak` value is an upper bound of the
selected magnitudes and is attained); the three-axis intensity is the
maximum of the three single-axis intensities. -/
theorem band_energy_estimator (data : List ℝ) (minFreq maxFreq : ℝ) (dX dY dZ : List ℝ) :
    (calculateIntensity1 data minFreq maxFreq =
      if selBins data.length minFreq maxFreq = [] then 0
      else min 1 ((0.8 * ((selBins data.length minFreq maxFreq).map
            (getMagnitude (process data))).foldr max 0
          + 0.2 * (((selBins data.length minFreq maxFreq).map
            (getMagnitude (process data))).sum /
              ((selBins data.length minFreq maxFreq).length : ℝ))) / 1.2)) ∧
    (∀ v ∈ (selBins data.length minFreq maxFreq).map (getMagnitude (process data)),
      v ≤ ((selBins data.length minFreq maxFreq).map (getMagnitude (process data))).foldr max 0) ∧
    (selBins data.length minFreq maxFreq ≠ [] →
      ((selBins data.length minFreq maxFreq).map (getMagnitude (process data))).foldr max 0
        ∈ (selBins data.length minFreq maxFreq).map (getMagnitude (process data))) ∧
    calculateIntensity3 dX dY dZ minFreq maxFreq =
      max (max (calculateIntensity1 dX minFreq maxFreq) (calculateIntensity1 dY minFreq maxFreq))
        (calculateIntensity1 dZ minFreq maxFreq) := by
  refine ⟨?_, fun v hv => le_foldr_max _ _ _ hv, ?_, rfl⟩
  · unfold calculateIntensity1
    rw [bandScan_eq]
    dsimp only
    by_cases h : selBins data.length minFreq maxFreq = []
    · rw [if_pos (by rw [h]; rfl), if_pos h]
    · rw [if_neg (fun hc => h (List.length_eq_zero.mp hc)), if_neg h]
      congr 1
      ring
  · intro hne
    set Lm := (selBins data.length minFreq maxFreq).map (getMagnitude (process data)) with hLm
    have hLne : Lm ≠ [] := by
      rw [hLm]
      exact fun hc => hne (List.map_eq_nil_iff.mp hc)
    rcases foldr_max_mem_or_init Lm 0 with h | h
    · obtain ⟨a, L, hal⟩ := List.exists_cons_of_ne_nil hLne
      have hmem : a ∈ Lm := by rw [hal]; exact List.mem_cons_self a L
      have h1 : a ≤ 0 := h ▸ le_foldr_max Lm 0 a hmem
      have h2 : 0 ≤ a := band_mags_nonneg _ _ a hmem
      have : Lm.foldr max 0 = a := by rw [h, le_antisymm h1 h2]
      rw [this]
      exact hmem
    · exact h

/-- Closed witness for `band_energy_estimator` at `data = [1, 0]` and the
band `[0, 52]`. -/
theorem band_energy_estimator_witness :
    (calculateIntensity1 [(1:ℝ), 0] 0 52 =
      if selBins [(1:ℝ), 0].length 0 52 = [] then 0
      else min 1 ((0.8 * ((selBins [(1:ℝ), 0].length 0 52).map
            (getMagnitude (process [(1:ℝ), 0]))).foldr max 0
          + 0.2 * (((selBins [(1:ℝ), 0].length 0 52).map
            (getMagnitude (process [(1:ℝ), 0]))).sum /
              ((selBins [(1:ℝ), 0].length 0 52).length : ℝ))) / 1.2)) ∧
    (∀ v ∈ (selBins [(1:ℝ), 0].length 0 52).map (getMagnitude (process [(1:ℝ), 0])),
      v ≤ ((selBins [(1:ℝ), 0].length 0 52).map
        (getMagnitude (process [(1:ℝ), 0]))).foldr max 0) ∧
    (selBins [(1:ℝ), 0].length 0 52 ≠ [] →
      ((selBins [(1:ℝ), 0].length 0 52).map (getMagnitude (process [(1:ℝ), 0]))).foldr max 0
        ∈ (selBins [(1:ℝ), 0].length 0 52).map (getMagnitude (process [(1:ℝ), 0]))) ∧
    calculateIntensity3 [(1:ℝ), 0] [(1:ℝ), 0] [(1:ℝ), 0] 0 52 =
      max (max (calculateIntensity1 [(1:ℝ), 0] 0 52) (calculateIntensity1 [(1:ℝ), 0] 0 52))
        (calculateIntensity1 [(1:ℝ), 0] 0 52) :=
  band_energy_estimator [1, 0] 0 52 [1, 0] [1, 0] [1, 0]

/-!  Scaling lemmas for the band energy (claim C8). -/

theorem getD_map_mul {α : Type*} [MulZeroClass α] (c : α) (l : List α) (t : ℕ) :
    (l.map (fun v => c * v)).getD t 0 = c * l.getD t 0 := by
  rcases lt_or_le t l.length with h | h
  · rw [List.getD_eq_getElem _ _ (by simpa using h), List.getD_eq_getElem _ _ h]
    simp
  · rw [List.getD_eq_default _ _ (by simpa using h), List.getD_eq_default _ _ h, mul_zero]

theorem dftEntry_smul (c : ℂ) (x : List ℂ) (k : ℕ) :
    dftEntry (x.map (fun v => c * v)) k = c * dftEntry x k := by
  unfold dftEntry
  rw [List.length_map, Finset.mul_sum]
  refine Finset.sum_congr rfl (fun t _ => ?_)
  rw [getD_map_mul]
  ring

theorem dft_smul (c : ℂ) (x : List ℂ) :
    dft (x.map (fun v => c * v)) = (dft x).map (fun v => c * v) := by
  unfold dft
  rw [List.length_map, List.map_map]
  refine List.map_congr_left (fun k _ => ?_)
  rw [Function.comp_apply, dftEntry_smul]

theorem fftC_smul (c : ℂ) (x : List ℂ) :
    fftC (x.map (fun v => c * v)) = (fftC x).map (fun v => c * v) := by
  unfold fftC
  rw [List.length_map]
  split_ifs with h1 hp
  · rfl
  · have hpow : x.length = 2 ^ Nat.clog 2 x.length := by
      conv_lhs => rw [← hp]
      rfl
    rw [fftP2_eq_dft (Nat.clog 2 x.length) _ (by rw [List.length_map]; exact hpow),
      fftP2_eq_dft (Nat.clog 2 x.length) x hpow, dft_smul]
  · have hpad : x.map (fun v => c * v) ++
        List.replicate (nextPow2 x.length - x.length) 0
        = (x ++ List.replicate (nextPow2 x.length - x.length) 0).map (fun v => c * v) := by
      rw [List.map_append, List.map_replicate, mul_zero]
    rw [hpad]
    have hle := le_nextPow2 x.length
    have hplen : (x ++ List.replicate (nextPow2 x.length - x.length) 0).length
        = 2 ^ Nat.clog 2 x.length := by
      simp only [List.length_append, List.length_replicate, nextPow2] at hle ⊢
      omega
    rw [fftP2_eq_dft (Nat.clog 2 x.length) _ (by rw [List.length_map]; exact hplen),
      fftP2_eq_dft (Nat.clog 2 x.length) _ hplen, dft_smul, List.map_take]

theorem process_smul (a : ℝ) (data : List ℝ) :
    process (data.map (fun v => a * v)) = (process data).map (fun v => (a : ℂ) * v) := by
  unfold process
  rw [← fftC_smul]
  congr 1
  rw [List.map_map, List.map_map]
  refine List.map_congr_left (fun v _ => ?_)
  simp [Complex.ofReal_mul]

theorem getMagnitude_smul (a : ℝ) (ha : 0 ≤ a) (spectrum : List ℂ) (i : ℕ) :
    getMagnitude (spectrum.map (fun v => (a : ℂ) * v)) i = a * getMagnitude spectrum i := by
  unfold getMagnitude
  rw [getD_map_mul, map_mul, Complex.abs_ofReal, abs_of_nonneg ha]

theorem foldr_max_map_mul (a : ℝ) (ha : 0 ≤ a) (L : List ℝ) :
    (L.map (fun v => a * v)).foldr max 0 = a * L.foldr max 0 := by
  induction L with
  | nil => simp
  | cons c L ih =>
    simp only [List.map_cons, List.foldr_cons, ih]
    rw [mul_max_of_nonneg _ _ ha]

theorem sum_map_mul (a : ℝ) (L : List ℝ) : (L.map (fun v => a * v)).sum = a * L.sum := by
  induction L with
  | nil => simp
  | cons c L ih => simp only [List.map_cons, List.sum_cons, ih]; ring

theorem bandScan_smul (data : List ℝ) (lo hi a : ℝ) (ha : 0 ≤ a) :
    bandScan (process (data.map (fun v => a * v))) (data.map (fun v => a * v)).length lo hi
      = (a * ((selBins data.length lo hi).map (getMagnitude (process data))).foldr max 0,
         a * ((selBins data.length lo hi).map (getMagnitude (process data))).sum,
         (selBins data.length lo hi).length) := by
  rw [List.length_map, process_smul, bandScan_eq]
  have hmap : (selBins data.length lo hi).map
      (getMagnitude ((process data).map (fun v => (a : ℂ) * v)))
      = ((selBins data.length lo hi).map (getMagnitude (process data))).map
          (fun v => a * v) := by
    rw [List.map_map]
    exact List.map_congr_left (fun k _ => getMagnitude_smul a ha (process data) k)
  rw [hmap, foldr_max_map_mul a ha, sum_map_mul]

/-- C8.  Scaling the (already DC-removed) single-axis input by a scalar
`a >= 0` scales the combined band energy `maxEnergy*0.8 + avgEnergy*0.2`
by `a`; consequently the returned band intensity is non-decreasing in the
scale factor and never exceeds `1` (once it reaches `1` it stays there). -/
theorem band_energy_scaling (data : List ℝ) (minFreq maxFreq a b : ℝ)
    (ha : 0 ≤ a) (hab : a ≤ b) :
    bandCombined (data.map (fun v => a * v)) minFreq maxFreq
      = a * bandCombined data minFreq maxFreq ∧
    calculateIntensity1 (data.map (fun v => a * v)) minFreq maxFreq
      ≤ calculateIntensity1 (data.map (fun v => b * v)) minFreq maxFreq ∧
    calculateIntensity1 (data.map (fun v => a * v)) minFreq maxFreq ≤ 1 ∧
    (calculateIntensity1 (data.map (fun v => a * v)) minFreq maxFreq = 1 →
      calculateIntensity1 (data.map (fun v => b * v)) minFreq maxFreq = 1) := by
  have hb : 0 ≤ b := le_trans ha hab
  have hpk0 : (0:ℝ) ≤ ((selBins data.length minFreq maxFreq).map
      (getMagnitude (process data))).foldr max 0 := init_le_foldr_max _ 0
  have hsm0 : (0:ℝ) ≤ ((selBins data.length minFreq maxFreq).map
      (getMagnitude (process data))).sum := List.sum_nonneg (band_mags_nonneg _ _)
  have hq0 : (0:ℝ) ≤ ((selBins data.length minFreq maxFreq).map
        (getMagnitude (process data))).sum / ((selBins data.length minFreq maxFreq).length : ℝ) :=
    div_nonneg hsm0 (Nat.cast_nonneg _)
  have hmono : calculateIntensity1 (data.map (fun v => a * v)) minFreq maxFreq
      ≤ calculateIntensity1 (data.map (fun v => b * v)) minFreq maxFreq := by
    unfold calculateIntensity1
    rw [bandScan_smul data minFreq maxFreq a ha, bandScan_smul data minFreq maxFreq b hb]
    dsimp only
    by_cases hc : (selBins data.length minFreq maxFreq).length = 0
    · rw [if_pos hc, if_pos hc]
    · rw [if_neg hc, if_neg hc]
      refine min_le_min (le_refl 1) ?_
      rw [div_le_div_iff_of_pos_right (by norm_num : (0:ℝ) < 1.2)]
      rw [mul_div_assoc, mul_div_assoc]
      have h1 := mul_le_mul_of_nonneg_right hab hpk0
      have h2 := mul_le_mul_of_nonneg_right hab hq0
      nlinarith
  refine ⟨?_, hmono, calculateIntensity1_le_one _ _ _, ?_⟩
  · unfold bandCombined
    rw [bandScan_smul data minFreq maxFreq a ha, bandScan_eq]
    dsimp only
    rw [mul_div_assoc]
    ring
  · intro h1
    exact le_antisymm (calculateIntensity1_le_one _ _ _) (h1 ▸ hmono)

/-- Closed witness for `band_energy_scaling` at `data = [1]`, `a = 0`,
`b = 1`. -/
theorem band_energy_scaling_witness :
    bandCombined ([(1:ℝ)].map (fun v => 0 * v)) 0 52
      = 0 * bandCombined [(1:ℝ)] 0 52 ∧
    calculateIntensity1 ([(1:ℝ)].map (fun v => 0 * v)) 0 52
      ≤ calculateIntensity1 ([(1:ℝ)].map (fun v => 1 * v)) 0 52 ∧
    calculateIntensity1 ([(1:ℝ)].map (fun v => 0 * v)) 0 52 ≤ 1 ∧
    (calculateIntensity1 ([(1:ℝ)].map (fun v => 0 * v)) 0 52 = 1 →
      calculateIntensity1 ([(1:ℝ)].map (fun v => 1 * v)) 0 52 = 1) :=
  band_energy_scaling [1] 0 52 0 1 (by norm_num) (by norm_num)

/-- C7.  Every result produced by `analyze` has its three intensities in
the closed interval `[0, 1]`. -/
theorem result_intensities_bounded (st : DetectorState) (ax ay az gx gy gz : List ℝ) :
    0 ≤ (analyze st ax ay az gx gy gz).1.tremorIntensity ∧
    (analyze st ax ay az gx gy gz).1.tremorIntensity ≤ 1 ∧
    0 ≤ (analyze st ax ay az gx gy gz).1.dyskinesiaIntensity ∧
    (analyze st ax ay az gx gy gz).1.dyskinesiaIntensity ≤ 1 ∧
    0 ≤ (analyze st ax ay az gx gy gz).1.fogIntensity ∧
    (analyze st ax ay az gx gy gz).1.fogIntensity ≤ 1 := by
  unfold analyze
  dsimp only
  exact ⟨calculateIntensity3_nonneg _ _ _ _ _, calculateIntensity3_le_one _ _ _ _ _,
    calculateIntensity3_nonneg _ _ _ _ _, calculateIntensity3_le_one _ _ _ _ _,
    calculateFOGIntensity_nonneg _, calculateFOGIntensity_le_one _⟩

/-- C9.  The `SymptomResults` returned by `analyze` depend only on the six
input channels, not on the detector's prior state: the gait analyzer
overwrites the `cadence` member from the current window before the FOG
decision reads it. -/
theorem analyze_state_independent (st1 st2 : DetectorState) (ax ay az gx gy gz : List ℝ) :
    (analyze st1 ax ay az gx gy gz).1 = (analyze st2 ax ay az gx gy gz).1 ∧
    (analyze st1 ax ay az gx gy gz).2.cadence = analyzeGaitCadence ax ay az :=
  ⟨rfl, rfl⟩

/-- C3.  Tremor uses the 3-5 Hz three-axis intensity of the DC-removed
accelerometer, dyskinesia the 5-7 Hz one, both compared against the same
0-2 Hz background intensity with threshold `0.25` and background ratio
`1.2`; the reported intensities are exactly the band intensities. -/
theorem band_detection_rule (st : DetectorState) (ax ay az gx gy gz : List ℝ) :
    (analyze st ax ay az gx gy gz).1.tremorIntensity
      = calculateIntensity3 (center ax) (center ay) (center az) 3 5 ∧
    ((analyze st ax ay az gx gy gz).1.tremorDetected ↔
      (calculateIntensity3 (center ax) (center ay) (center az) 3 5 > 0.25 ∧
       calculateIntensity3 (center ax) (center ay) (center az) 3 5 >
         1.2 * calculateIntensity3 (center ax) (center ay) (center az) 0 2)) ∧
    (analyze st ax ay az gx gy gz).1.dyskinesiaIntensity
      = calculateIntensity3 (center ax) (center ay) (center az) 5 7 ∧
    ((analyze st ax ay az gx gy gz).1.dyskinesiaDetected ↔
      (calculateIntensity3 (center ax) (center ay) (center az) 5 7 > 0.25 ∧
       calculateIntensity3 (center ax) (center ay) (center az) 5 7 >
         1.2 * calculateIntensity3 (center ax) (center ay) (center az) 0 2)) := by
  unfold analyze
  dsimp only
  rw [mul_comm (calculateIntensity3 (center ax) (center ay) (center az) 0 2) (1.2:ℝ)]
  exact ⟨rfl, Iff.rfl, rfl, Iff.rfl⟩

/-!  Characterisation of the step-detection fold (claims C5 and C1). -/

theorem steps_fold_invariant (m : ℕ → ℝ) (T : ℝ) (P : ℕ → Prop)
    (hP : ∀ i, P i ↔ (m i > T ∧ m i > m (i - 1) ∧ m i > m (i + 1) ∧ (i = 1 ∨ m (i - 1) ≤ T))) :
    ∀ (k a s : ℕ) (W : Prop), 2 ≤ a → (W ↔ m (a - 1) > T) →
      ((List.range' a k).foldl
          (fun (acc : ℕ × Prop) i =>
            (if m i > T ∧ ¬ acc.2 ∧ m i > m (i - 1) ∧ m i > m (i + 1)
              then acc.1 + 1 else acc.1, m i > T)) (s, W)).1
        = s + ((List.range' a k).filter (fun i => decide (P i))).length := by
  intro k
  induction k with
  | zero => intro a s W _ _; simp
  | succ k ih =>
    intro a s W ha hW
    rw [List.range'_succ, List.foldl_cons, List.filter_cons]
    by_cases h : m a > T ∧ ¬ W ∧ m a > m (a - 1) ∧ m a > m (a + 1)
    · have hamend : P a := (hP a).mpr
        ⟨h.1, h.2.2.1, h.2.2.2, Or.inr (not_lt.mp (fun hc => h.2.1 (hW.mpr hc)))⟩
      rw [if_pos h, ih (a + 1) (s + 1) (m a > T) (by omega) (by simp),
        if_pos (by simpa using hamend), List.length_cons]
      omega
    · have hamend : ¬ P a := by
        intro hc0
        have hc := (hP a).mp hc0
        refine h ⟨hc.1, fun hw => ?_, hc.2.1, hc.2.2.1⟩
        rcases hc.2.2.2 with h1 | h1
        · omega
        · exact absurd (hW.mp hw) (not_lt.mpr h1)
      rw [if_neg h, ih (a + 1) s (m a > T) (by omega) (by simp),
        if_neg (by simpa using hamend)]

theorem detectSteps_eq_count (mag : List ℝ) :
    detectSteps mag = ((List.range' 1 (mag.length - 2)).filter
      (fun i => decide (stepIndexAmended mag i))).length := by
  have hP : ∀ i, stepIndexAmended mag i ↔
      (mag.getD i 0 > listMean mag + Real.sqrt (popVar mag) * 0.5 ∧
       mag.getD i 0 > mag.getD (i - 1) 0 ∧ mag.getD i 0 > mag.getD (i + 1) 0 ∧
       (i = 1 ∨ mag.getD (i - 1) 0 ≤ listMean mag + Real.sqrt (popVar mag) * 0.5)) :=
    fun i => Iff.rfl
  unfold detectSteps
  dsimp only
  rcases Nat.eq_zero_or_pos (mag.length - 2) with h0 | hpos
  · rw [h0]
    simp
  · obtain ⟨k, hk⟩ : ∃ k, mag.length - 2 = k + 1 := ⟨mag.length - 3, by omega⟩
    rw [hk, List.range'_succ, List.foldl_cons, List.filter_cons]
    by_cases h : mag.getD 1 0 > listMean mag + Real.sqrt (popVar mag) * 0.5 ∧ ¬ False ∧
        mag.getD 1 0 > mag.getD (1 - 1) 0 ∧ mag.getD 1 0 > mag.getD (1 + 1) 0
    · have hamend : stepIndexAmended mag 1 := (hP 1).mpr ⟨h.1, h.2.2.1, h.2.2.2, Or.inl rfl⟩
      rw [if_pos h, show (1 : ℕ) + 1 = 2 from rfl,
        steps_fold_invariant (fun i => mag.getD i 0)
          (listMean mag + Real.sqrt (popVar mag) * 0.5) (stepIndexAmended mag) hP k 2 1
          (mag.getD 1 0 > listMean mag + Real.sqrt (popVar mag) * 0.5) (by omega) (by simp),
        if_pos (by simpa using hamend), List.length_cons]
      omega
    · have hamend : ¬ stepIndexAmended mag 1 := by
        intro hc0
        have hc := (hP 1).mp hc0
        exact h ⟨hc.1, not_false, hc.2.1, hc.2.2.1⟩
      rw [if_neg h, show (1 : ℕ) + 1 = 2 from rfl,
        steps_fold_invariant (fun i => mag.getD i 0)
          (listMean mag + Real.sqrt (popVar mag) * 0.5) (stepIndexAmended mag) hP k 2 0
          (mag.getD 1 0 > listMean mag + Real.sqrt (popVar mag) * 0.5) (by omega) (by simp),
        if_neg (by simpa using hamend)]
      omega

/-- C5 (amended).  The step counter counts exactly the interior indices
satisfying the threshold-crossing local-maximum condition, with the
`mag[i-1] <= T` requirement waived at `i = 1` (the source initialises
`wasAbove` to `false`); the cadence is `steps / 3`, which agrees with
`steps / (N / 52)` exactly when `N = 156`. -/
theorem gait_analyzer_rule (accelX accelY accelZ : List ℝ) :
    detectSteps (mag3 accelX accelY accelZ)
      = ((List.range' 1 ((mag3 accelX accelY accelZ).length - 2)).filter
          (fun i => decide (stepIndexAmended (mag3 accelX accelY accelZ) i))).length ∧
    analyzeGaitCadence accelX accelY accelZ
      = (detectSteps (mag3 accelX accelY accelZ) : ℝ) / 3 ∧
    (accelX.length = 156 → analyzeGaitCadence accelX accelY accelZ
      = (detectSteps (mag3 accelX accelY accelZ) : ℝ) / ((accelX.length : ℝ) / 52)) := by
  refine ⟨detectSteps_eq_count _, rfl, fun h156 => ?_⟩
  rw [h156]
  norm_num [analyzeGaitCadence]

/-- Closed witness for `gait_analyzer_rule` at a length-156 zero window. -/
theorem gait_analyzer_rule_witness :
    detectSteps (mag3 (List.replicate 156 (0:ℝ)) (List.replicate 156 0) (List.replicate 156 0))
      = ((List.range' 1 ((mag3 (List.replicate 156 (0:ℝ)) (List.replicate 156 0)
            (List.replicate 156 0)).length - 2)).filter
          (fun i => decide (stepIndexAmended (mag3 (List.replicate 156 (0:ℝ))
            (List.replicate 156 0) (List.replicate 156 0)) i))).length ∧
    analyzeGaitCadence (List.replicate 156 (0:ℝ)) (List.replicate 156 0)
        (List.replicate 156 0)
      = (detectSteps (mag3 (List.replicate 156 (0:ℝ)) (List.replicate 156 0)
          (List.replicate 156 0)) : ℝ) / 3 ∧
    ((List.replicate 156 (0:ℝ)).length = 156 →
      analyzeGaitCadence (List.replicate 156 (0:ℝ)) (List.replicate 156 0)
          (List.replicate 156 0)
        = (detectSteps (mag3 (List.replicate 156 (0:ℝ)) (List.replicate 156 0)
            (List.replicate 156 0)) : ℝ) / (((List.replicate 156 (0:ℝ)).length : ℝ) / 52)) :=
  gait_analyzer_rule (List.replicate 156 0) (List.replicate 156 0) (List.replicate 156 0)

/-!  The all-zero window (claim C1). -/

theorem listMean_replicate_zero (n : ℕ) : listMean (List.replicate n (0:ℝ)) = 0 := by
  unfold listMean
  simp

theorem popVar_replicate_zero (n : ℕ) : popVar (List.replicate n (0:ℝ)) = 0 := by
  unfold popVar
  rw [listMean_replicate_zero]
  simp

theorem center_replicate_zero (n : ℕ) :
    center (List.replicate n (0:ℝ)) = List.replicate n 0 := by
  unfold center
  rw [listMean_replicate_zero]
  simp

theorem mag3_replicate_zero (n : ℕ) :
    mag3 (List.replicate n (0:ℝ)) (List.replicate n 0) (List.replicate n 0)
      = List.replicate n 0 := by
  unfold mag3
  rw [List.length_replicate]
  refine List.eq_replicate_iff.mpr ⟨by simp, fun b hb => ?_⟩
  simp only [List.mem_map] at hb
  obtain ⟨i, _, hi⟩ := hb
  have hg : ∀ j : ℕ, (List.replicate n (0:ℝ)).getD j 0 = 0 := fun j => getD_replicate_zero n j
  rw [← hi, hg]
  norm_num

theorem foldr_max_of_all_zero (L : List ℝ) (h : ∀ x ∈ L, x = 0) : L.foldr max 0 = 0 := by
  induction L with
  | nil => rfl
  | cons c L ih =>
    rw [List.foldr_cons, h c (List.mem_cons_self c L),
      ih (fun x hx => h x (List.mem_cons_of_mem _ hx))]
    simp

theorem calculateIntensity1_zero (n : ℕ) (lo hi : ℝ) :
    calculateIntensity1 (List.replicate n (0:ℝ)) lo hi = 0 := by
  have hspec : process (List.replicate n (0:ℝ)) = List.replicate n 0 := by
    unfold process
    rw [List.map_replicate, Complex.ofReal_zero, fftC_replicate_zero]
  have hmg : ∀ i, getMagnitude (List.replicate n (0:ℂ)) i = 0 := by
    intro i
    unfold getMagnitude
    rw [getD_replicate_zero]
    simp
  unfold calculateIntensity1
  rw [bandScan_eq, hspec, List.length_replicate]
  dsimp only
  have hzero : ∀ v ∈ (selBins n lo hi).map (getMagnitude (List.replicate n (0:ℂ))), v = 0 := by
    intro v hv
    obtain ⟨i, _, hi⟩ := List.mem_map.mp hv
    rw [← hi, hmg]
  by_cases hc : (selBins n lo hi).length = 0
  · rw [if_pos hc]
  · rw [if_neg hc, foldr_max_of_all_zero _ hzero, List.sum_eq_zero hzero]
    norm_num

theorem detectSteps_replicate_zero (n : ℕ) : detectSteps (List.replicate n (0:ℝ)) = 0 := by
  rw [detectSteps_eq_count]
  have hnone : ∀ i ∈ List.range' 1 ((List.replicate n (0:ℝ)).length - 2),
      ¬ stepIndexAmended (List.replicate n (0:ℝ)) i := by
    intro i _
    unfold stepIndexAmended
    rw [getD_replicate_zero, listMean_replicate_zero, popVar_replicate_zero]
    intro hc
    have := hc.1
    rw [Real.sqrt_zero] at this
    norm_num at this
  rw [List.filter_eq_nil_iff.mpr (fun i hi => by simpa using hnone i hi)]
  rfl

theorem calculateFOGIntensity_replicate_zero (n : ℕ) :
    calculateFOGIntensity (List.replicate n (0:ℝ)) = 1 := by
  unfold calculateFOGIntensity
  rw [List.length_replicate, List.drop_replicate, popVar_replicate_zero]
  norm_num

/-- C1 (amended).  On an all-zero window the tremor and dyskinesia
intensities are `0` and all three detection flags are false, but the FOG
intensity is `1` (zero variance means "fully frozen" in
`calculateFOGIntensity`), not `0` as the specification claims. -/
theorem zero_window_output (st : DetectorState) (n : ℕ) :
    ¬ (analyze st (List.replicate n 0) (List.replicate n 0) (List.replicate n 0)
        (List.replicate n 0) (List.replicate n 0) (List.replicate n 0)).1.tremorDetected ∧
    (analyze st (List.replicate n 0) (List.replicate n 0) (List.replicate n 0)
        (List.replicate n 0) (List.replicate n 0) (List.replicate n 0)).1.tremorIntensity = 0 ∧
    ¬ (analyze st (List.replicate n 0) (List.replicate n 0) (List.replicate n 0)
        (List.replicate n 0) (List.replicate n 0) (List.replicate n 0)).1.dyskinesiaDetected ∧
    (analyze st (List.replicate n 0) (List.replicate n 0) (List.replicate n 0)
        (List.replicate n 0) (List.replicate n 0)
          (List.replicate n 0)).1.dyskinesiaIntensity = 0 ∧
    ¬ (analyze st (List.replicate n 0) (List.replicate n 0) (List.replicate n 0)
        (List.replicate n 0) (List.replicate n 0) (List.replicate n 0)).1.fogDetected ∧
    (analyze st (List.replicate n 0) (List.replicate n 0) (List.replicate n 0)
        (List.replicate n 0) (List.replicate n 0) (List.replicate n 0)).1.fogIntensity = 1 := by
  unfold analyze
  dsimp only
  have hI : ∀ lo hi : ℝ, calculateIntensity3 (center (List.replicate n 0))
      (center (List.replicate n 0)) (center (List.replicate n 0)) lo hi = 0 := by
    intro lo hi
    unfold calculateIntensity3
    rw [center_replicate_zero, calculateIntensity1_zero]
    simp
  have hcad : analyzeGaitCadence (List.replicate n 0) (List.replicate n 0)
      (List.replicate n 0) = 0 := by
    unfold analyzeGaitCadence
    rw [mag3_replicate_zero, detectSteps_replicate_zero]
    norm_num
  refine ⟨?_, hI 3 5, ?_, hI 5 7, ?_, ?_⟩
  · rw [hI]
    intro hc
    have := hc.1
    norm_num at this
  · rw [hI]
    intro hc
    have := hc.1
    norm_num at this
  · unfold detectFOG
    dsimp only
    rw [hcad]
    intro hc
    have := hc.1
    norm_num at this
  · rw [mag3_replicate_zero, calculateFOGIntensity_replicate_zero]

/-!  Segment variances (claim C2). -/

theorem list_sum_getD {M : Type*} [AddCommMonoid M] (l : List M) :
    l.sum = ∑ i in Finset.range l.length, l.getD i 0 := by
  induction l with
  | nil => simp
  | cons a l ih =>
    rw [List.sum_cons, List.length_cons, Finset.sum_range_succ', ih]
    simp only [List.getD_cons_succ, List.getD_cons_zero]
    abel

theorem length_drop_take (l : List ℝ) (o t : ℕ) (h : o + t ≤ l.length) :
    ((l.drop o).take t).length = t := by
  simp only [List.length_take, List.length_drop]
  omega

theorem getD_drop_take (l : List ℝ) (o t i : ℕ) (hi : i < t) (h : o + t ≤ l.length) :
    ((l.drop o).take t).getD i 0 = l.getD (o + i) 0 := by
  have h1 : i < ((l.drop o).take t).length := by rw [length_drop_take l o t h]; exact hi
  have h2 : o + i < l.length := by omega
  rw [List.getD_eq_getElem _ _ h1, List.getD_eq_getElem _ _ h2]
  rw [List.getElem_take, List.getElem_drop]

theorem calculateVariance_seg (xs ys zs : List ℝ) (o t : ℕ)
    (hy : ys.length = xs.length) (hz : zs.length = xs.length) (h : o + t ≤ xs.length) :
    calculateVariance ((xs.drop o).take t) ((ys.drop o).take t) ((zs.drop o).take t)
      = blockVarSpec (fun i => xs.getD i 0) (fun i => ys.getD i 0) (fun i => zs.getD i 0)
          o t := by
  unfold calculateVariance blockVarSpec
  have hmag : mag3 ((xs.drop o).take t) ((ys.drop o).take t) ((zs.drop o).take t)
      = (List.range t).map (fun i =>
          Real.sqrt (xs.getD (o + i) 0 ^ 2 + ys.getD (o + i) 0 ^ 2 + zs.getD (o + i) 0 ^ 2)) := by
    unfold mag3
    rw [length_drop_take xs o t h]
    refine List.map_congr_left (fun i hi => ?_)
    have hi' := List.mem_range.mp hi
    rw [getD_drop_take xs o t i hi' h, getD_drop_take ys o t i hi' (by omega),
      getD_drop_take zs o t i hi' (by omega)]
  rw [hmag]
  unfold popVar listMean
  rw [List.length_map, List.length_range, List.map_map, sum_map_range, sum_map_range]
  rfl

/-- C2.  The FOG verdict of `analyze` holds exactly when the cadence of the
current window exceeds `0.3`, the population variances of the
accelerometer and gyroscope magnitudes over the last contiguous third
(indices `[2*(N/3), 3*(N/3))`) are both below `0.01`, and the last-third
accelerometer variance is below `0.5` times the first-third one. -/
theorem fog_decision_rule (st : DetectorState) (ax ay az gx gy gz : List ℝ)
    (hy : ay.length = ax.length) (hz : az.length = ax.length)
    (hgx : gx.length = ax.length) (hgy : gy.length = ax.length)
    (hgz : gz.length = ax.length) :
    (analyze st ax ay az gx gy gz).1.fogDetected ↔
      (analyzeGaitCadence ax ay az > 0.3 ∧
       (blockVarSpec (fun i => ax.getD i 0) (fun i => ay.getD i 0) (fun i => az.getD i 0)
          (2 * (ax.length / 3)) (ax.length / 3) < 0.01 ∧
        blockVarSpec (fun i => gx.getD i 0) (fun i => gy.getD i 0) (fun i => gz.getD i 0)
          (2 * (ax.length / 3)) (ax.length / 3) < 0.01) ∧
       blockVarSpec (fun i => ax.getD i 0) (fun i => ay.getD i 0) (fun i => az.getD i 0)
          (2 * (ax.length / 3)) (ax.length / 3)
         < 0.5 * blockVarSpec (fun i => ax.getD i 0) (fun i => ay.getD i 0)
            (fun i => az.getD i 0) 0 (ax.length / 3)) := by
  have ht : 2 * (ax.length / 3) + ax.length / 3 ≤ ax.length := by omega
  have ht0 : 0 + ax.length / 3 ≤ ax.length := by omega
  unfold analyze detectFOG
  dsimp only
  have hfirst : ∀ l : List ℝ, l.take (ax.length / 3) = (l.drop 0).take (ax.length / 3) := by
    intro l
    rw [List.drop_zero]
  rw [hfirst ax, hfirst ay, hfirst az,
    calculateVariance_seg ax ay az 0 (ax.length / 3) hy hz ht0,
    calculateVariance_seg ax ay az (2 * (ax.length / 3)) (ax.length / 3) hy hz ht,
    calculateVariance_seg gx gy gz (2 * (ax.length / 3)) (ax.length / 3)
      (by omega) (by omega) (by rw [hgx]; exact ht)]
  rw [mul_comm (blockVarSpec (fun i => ax.getD i 0) (fun i => ay.getD i 0)
    (fun i => az.getD i 0) 0 (ax.length / 3)) (0.5 : ℝ)]

/-- Closed witness for `fog_decision_rule` on a length-3 zero window. -/
theorem fog_decision_rule_witness :
    (analyze ⟨0, 0, 0⟩ (List.replicate 3 (0:ℝ)) (List.replicate 3 0) (List.replicate 3 0)
        (List.replicate 3 0) (List.replicate 3 0) (List.replicate 3 0)).1.fogDetected ↔
      (analyzeGaitCadence (List.replicate 3 (0:ℝ)) (List.replicate 3 0)
          (List.replicate 3 0) > 0.3 ∧
       (blockVarSpec (fun i => (List.replicate 3 (0:ℝ)).getD i 0)
          (fun i => (List.replicate 3 (0:ℝ)).getD i 0)
          (fun i => (List.replicate 3 (0:ℝ)).getD i 0)
          (2 * ((List.replicate 3 (0:ℝ)).length / 3))
          ((List.replicate 3 (0:ℝ)).length / 3) < 0.01 ∧
        blockVarSpec (fun i => (List.replicate 3 (0:ℝ)).getD i 0)
          (fun i => (List.replicate 3 (0:ℝ)).getD i 0)
          (fun i => (List.replicate 3 (0:ℝ)).getD i 0)
          (2 * ((List.replicate 3 (0:ℝ)).length / 3))
          ((List.replicate 3 (0:ℝ)).length / 3) < 0.01) ∧
       blockVarSpec (fun i => (List.replicate 3 (0:ℝ)).getD i 0)
          (fun i => (List.replicate 3 (0:ℝ)).getD i 0)
          (fun i => (List.replicate 3 (0:ℝ)).getD i 0)
          (2 * ((List.replicate 3 (0:ℝ)).length / 3))
          ((List.replicate 3 (0:ℝ)).length / 3)
         < 0.5 * blockVarSpec (fun i => (List.replicate 3 (0:ℝ)).getD i 0)
            (fun i => (List.replicate 3 (0:ℝ)).getD i 0)
            (fun i => (List.replicate 3 (0:ℝ)).getD i 0) 0
            ((List.replicate 3 (0:ℝ)).length / 3)) :=
  fog_decision_rule ⟨0, 0, 0⟩ (List.replicate 3 0) (List.replicate 3 0) (List.replicate 3 0)
    (List.replicate 3 0) (List.replicate 3 0) (List.replicate 3 0) rfl rfl rfl rfl rfl

/-!  Memory-level view of `analyze` (claim C10). -/

/-- The six caller-supplied sample buffers passed to `analyze`. -/
structure InputBuffers where
  accelX : List ℝ
  accelY : List ℝ
  accelZ : List ℝ
  gyroX : List ℝ
  gyroY : List ℝ
  gyroZ : List ℝ

/-- `SymptomDetector::analyze` at the memory level.  Every store the
routine and its callees perform targets a freshly `new[]`-allocated
buffer: `processedX/Y/Z` and `accelMagnitude` in `analyze`, the magnitude
scratch buffers in `analyzeGait` and `calculateVariance`, and the FFT
processor's `fftResult` plus the `padded`/`even`/`odd` temporaries inside
`FFTProcessor::fft` (which first copies its input).  These fresh buffers
are the locally bound lists below; no assignment in the source has one of
the six argument pointers as its base, so the caller's buffers are
returned unchanged next to the result. -/
def analyzeMem (st : DetectorState) (bufs : InputBuffers) :
    (SymptomResults × DetectorState) × InputBuffers :=
  let processedX := center bufs.accelX
  let processedY := center bufs.accelY
  let processedZ := center bufs.accelZ
  let accelMagnitude := mag3 bufs.accelX bufs.accelY bufs.accelZ
  let tremorIntensity := calculateIntensity3 processedX processedY processedZ 3 5
  let backgroundNoise := calculateIntensity3 processedX processedY processedZ 0 2
  let dyskinesiaIntensity := calculateIntensity3 processedX processedY processedZ 5 7
  let st1 : DetectorState :=
    { st with cadence := analyzeGaitCadence bufs.accelX bufs.accelY bufs.accelZ }
  (({ tremorDetected := tremorIntensity > 0.25 ∧ tremorIntensity > backgroundNoise * 1.2,
      tremorIntensity := tremorIntensity,
      dyskinesiaDetected := dyskinesiaIntensity > 0.25 ∧
        dyskinesiaIntensity > backgroundNoise * 1.2,
      dyskinesiaIntensity := dyskinesiaIntensity,
      fogDetected := detectFOG st1.cadence bufs.accelX bufs.accelY bufs.accelZ
        bufs.gyroX bufs.gyroY bufs.gyroZ,
      fogIntensity := calculateFOGIntensity accelMagnitude }, st1), bufs)

/-- C10.  `analyze` leaves the six caller-supplied input buffers unchanged
on return, and its memory-level view agrees with the functional model. -/
theorem analyze_preserves_inputs (st : DetectorState) (bufs : InputBuffers) :
    (analyzeMem st bufs).2 = bufs ∧
    (analyzeMem st bufs).1 = analyze st bufs.accelX bufs.accelY bufs.accelZ
      bufs.gyroX bufs.gyroY bufs.gyroZ :=
  ⟨rfl, rfl⟩

/-!  Concrete gait evaluations (counterexample to claim C5). -/

theorem range_map_getD (l : List ℝ) :
    (List.range l.length).map (fun i => l.getD i 0) = l := by
  refine List.ext_getElem (by simp) (fun i h1 h2 => ?_)
  simp only [List.getElem_map, List.getElem_range]
  rw [List.getD_eq_getElem _ _ h2]

theorem mag3_single (xs : List ℝ) (hx : ∀ i, 0 ≤ xs.getD i 0) :
    mag3 xs (List.replicate xs.length 0) (List.replicate xs.length 0) = xs := by
  unfold mag3
  have hg : ∀ j : ℕ, (List.replicate xs.length (0:ℝ)).getD j 0 = 0 :=
    fun j => getD_replicate_zero _ _
  have hcong : ∀ i ∈ List.range xs.length,
      Real.sqrt (xs.getD i 0 ^ 2 + (List.replicate xs.length (0:ℝ)).getD i 0 ^ 2 +
        (List.replicate xs.length (0:ℝ)).getD i 0 ^ 2) = xs.getD i 0 := by
    intro i _
    rw [hg]
    have h0 : xs.getD i 0 ^ 2 + 0 ^ 2 + 0 ^ 2 = xs.getD i 0 ^ 2 := by ring
    rw [h0, Real.sqrt_sq (hx i)]
  rw [List.map_congr_left hcong, range_map_getD]

theorem getD_nonneg_of_forall (l : List ℝ) (h : ∀ x ∈ l, 0 ≤ x) (i : ℕ) :
    0 ≤ l.getD i 0 := by
  rcases lt_or_le i l.length with hi | hi
  · rw [List.getD_eq_getElem _ _ hi]
    exact h _ (List.getElem_mem _)
  · rw [List.getD_eq_default _ _ hi]

/-- Counterexample to C5 as stated.  On `accel = ([3,4,0,0,0,0], 0, 0)` the
source counts the peak at `i = 1` even though `mag[0] > T` (so the
claimed index set has 0 elements while the code counts 1, and the claimed
cadence 0 differs from the actual 1/3); on `accel = ([0,2,0,0], 0, 0)`
both count 1 step but the code's cadence is `1/3 = steps/3.0` while the
claimed formula `steps / (N/52)` gives `13`. -/
theorem gait_claim_counterexample :
    detectSteps (mag3 [(3:ℝ), 4, 0, 0, 0, 0] (List.replicate 6 0) (List.replicate 6 0)) = 1 ∧
    stepsSpec (mag3 [(3:ℝ), 4, 0, 0, 0, 0] (List.replicate 6 0) (List.replicate 6 0)) = 0 ∧
    analyzeGaitCadence [(3:ℝ), 4, 0, 0, 0, 0] (List.replicate 6 0) (List.replicate 6 0)
      = 1 / 3 ∧
    cadenceSpec [(3:ℝ), 4, 0, 0, 0, 0] (List.replicate 6 0) (List.replicate 6 0) = 0 ∧
    detectSteps (mag3 [(0:ℝ), 2, 0, 0] (List.replicate 4 0) (List.replicate 4 0)) = 1 ∧
    stepsSpec (mag3 [(0:ℝ), 2, 0, 0] (List.replicate 4 0) (List.replicate 4 0)) = 1 ∧
    analyzeGaitCadence [(0:ℝ), 2, 0, 0] (List.replicate 4 0) (List.replicate 4 0) = 1 / 3 ∧
    cadenceSpec [(0:ℝ), 2, 0, 0] (List.replicate 4 0) (List.replicate 4 0) = 13 := by
  have hmagA : mag3 [(3:ℝ), 4, 0, 0, 0, 0] (List.replicate 6 0) (List.replicate 6 0)
      = [(3:ℝ), 4, 0, 0, 0, 0] := by
    have hx : ∀ i, 0 ≤ ([(3:ℝ), 4, 0, 0, 0, 0]).getD i 0 := by
      refine getD_nonneg_of_forall _ (fun x hx => ?_)
      simp only [List.mem_cons, List.not_mem_nil, or_false] at hx
      rcases hx with rfl | rfl | rfl | rfl | rfl | rfl <;> norm_num
    exact mag3_single [(3:ℝ), 4, 0, 0, 0, 0] hx
  have hmagB : mag3 [(0:ℝ), 2, 0, 0] (List.replicate 4 0) (List.replicate 4 0)
      = [(0:ℝ), 2, 0, 0] := by
    have hx : ∀ i, 0 ≤ ([(0:ℝ), 2, 0, 0]).getD i 0 := by
      refine getD_nonneg_of_forall _ (fun x hx => ?_)
      simp only [List.mem_cons, List.not_mem_nil, or_false] at hx
      rcases hx with rfl | rfl | rfl | rfl <;> norm_num
    exact mag3_single [(0:ℝ), 2, 0, 0] hx
  have hmA : listMean [(3:ℝ), 4, 0, 0, 0, 0] = 7 / 6 := by norm_num [listMean]
  have hvA : popVar [(3:ℝ), 4, 0, 0, 0, 0] = 101 / 36 := by
    rw [popVar, hmA]
    norm_num
  have hsA : Real.sqrt (popVar [(3:ℝ), 4, 0, 0, 0, 0]) < 11 / 3 := by
    rw [hvA, Real.sqrt_lt' (by norm_num)]
    norm_num
  have hsA0 : 0 ≤ Real.sqrt (popVar [(3:ℝ), 4, 0, 0, 0, 0]) := Real.sqrt_nonneg _
  have hmB : listMean [(0:ℝ), 2, 0, 0] = 1 / 2 := by norm_num [listMean]
  have hvB : popVar [(0:ℝ), 2, 0, 0] = 3 / 4 := by
    rw [popVar, hmB]
    norm_num
  have hsB : Real.sqrt (popVar [(0:ℝ), 2, 0, 0]) < 1 := by
    rw [hvB, Real.sqrt_lt' (by norm_num)]
    norm_num
  have hsB0 : 0 ≤ Real.sqrt (popVar [(0:ℝ), 2, 0, 0]) := Real.sqrt_nonneg _
  have hstepsA : detectSteps [(3:ℝ), 4, 0, 0, 0, 0] = 1 := by
    rw [detectSteps_eq_count,
      show List.range' 1 (([(3:ℝ), 4, 0, 0, 0, 0]).length - 2) = [1, 2, 3, 4] from rfl]
    have h1 : stepIndexAmended [(3:ℝ), 4, 0, 0, 0, 0] 1 := by
      unfold stepIndexAmended
      refine ⟨?_, ?_, ?_, Or.inl rfl⟩
      · show (4:ℝ) > listMean [(3:ℝ), 4, 0, 0, 0, 0] +
          Real.sqrt (popVar [(3:ℝ), 4, 0, 0, 0, 0]) * 0.5
        rw [hmA]
        linarith
      · show (4:ℝ) > (3:ℝ)
        norm_num
      · show (4:ℝ) > (0:ℝ)
        norm_num
    have hz : ∀ j ∈ ([2, 3, 4] : List ℕ), ¬ stepIndexAmended [(3:ℝ), 4, 0, 0, 0, 0] j := by
      intro j hj hc
      have h0 : ([(3:ℝ), 4, 0, 0, 0, 0]).getD j 0 > listMean [(3:ℝ), 4, 0, 0, 0, 0] +
          Real.sqrt (popVar [(3:ℝ), 4, 0, 0, 0, 0]) * 0.5 := hc.1
      have hj0 : ([(3:ℝ), 4, 0, 0, 0, 0]).getD j 0 = 0 := by
        simp only [List.mem_cons, List.not_mem_nil, or_false] at hj
        rcases hj with rfl | rfl | rfl <;> rfl
      rw [hj0, hmA] at h0
      linarith
    have e1 := decide_eq_true h1
    have e2 := decide_eq_false (hz 2 (by norm_num))
    have e3 := decide_eq_false (hz 3 (by norm_num))
    have e4 := decide_eq_false (hz 4 (by norm_num))
    simp [List.filter_cons, e1, e2, e3, e4]
  have hspecA : stepsSpec [(3:ℝ), 4, 0, 0, 0, 0] = 0 := by
    unfold stepsSpec
    rw [show List.range' 1 (([(3:ℝ), 4, 0, 0, 0, 0]).length - 2) = [1, 2, 3, 4] from rfl]
    have h1 : ¬ stepIndexSpec [(3:ℝ), 4, 0, 0, 0, 0] 1 := by
      intro hc
      have h0 : ([(3:ℝ), 4, 0, 0, 0, 0]).getD 0 0 ≤ listMean [(3:ℝ), 4, 0, 0, 0, 0] +
          0.5 * Real.sqrt (popVar [(3:ℝ), 4, 0, 0, 0, 0]) := hc.2.2.2
      have h3 : ([(3:ℝ), 4, 0, 0, 0, 0]).getD 0 0 = 3 := rfl
      rw [h3, hmA] at h0
      linarith
    have hz : ∀ j ∈ ([2, 3, 4] : List ℕ), ¬ stepIndexSpec [(3:ℝ), 4, 0, 0, 0, 0] j := by
      intro j hj hc
      have h0 : ([(3:ℝ), 4, 0, 0, 0, 0]).getD j 0 > listMean [(3:ℝ), 4, 0, 0, 0, 0] +
          0.5 * Real.sqrt (popVar [(3:ℝ), 4, 0, 0, 0, 0]) := hc.1
      have hj0 : ([(3:ℝ), 4, 0, 0, 0, 0]).getD j 0 = 0 := by
        simp only [List.mem_cons, List.not_mem_nil, or_false] at hj
        rcases hj with rfl | rfl | rfl <;> rfl
      rw [hj0, hmA] at h0
      linarith
    have e1 := decide_eq_false h1
    have e2 := decide_eq_false (hz 2 (by norm_num))
    have e3 := decide_eq_false (hz 3 (by norm_num))
    have e4 := decide_eq_false (hz 4 (by norm_num))
    simp [List.filter_cons, e1, e2, e3, e4]
  have hstepsB : detectSteps [(0:ℝ), 2, 0, 0] = 1 := by
    rw [detectSteps_eq_count,
      show List.range' 1 (([(0:ℝ), 2, 0, 0]).length - 2) = [1, 2] from rfl]
    have h1 : stepIndexAmended [(0:ℝ), 2, 0, 0] 1 := by
      unfold stepIndexAmended
      refine ⟨?_, ?_, ?_, Or.inl rfl⟩
      · show (2:ℝ) > listMean [(0:ℝ), 2, 0, 0] +
          Real.sqrt (popVar [(0:ℝ), 2, 0, 0]) * 0.5
        rw [hmB]
        linarith
      · show (2:ℝ) > (0:ℝ)
        norm_num
      · show (2:ℝ) > (0:ℝ)
        norm_num
    have h2 : ¬ stepIndexAmended [(0:ℝ), 2, 0, 0] 2 := by
      intro hc
      have h0 : ([(0:ℝ), 2, 0, 0]).getD 2 0 > listMean [(0:ℝ), 2, 0, 0] +
          Real.sqrt (popVar [(0:ℝ), 2, 0, 0]) * 0.5 := hc.1
      have hj0 : ([(0:ℝ), 2, 0, 0]).getD 2 0 = 0 := rfl
      rw [hj0, hmB] at h0
      linarith
    have e1 := decide_eq_true h1
    have e2 := decide_eq_false h2
    simp [List.filter_cons, e1, e2]
  have hspecB : stepsSpec [(0:ℝ), 2, 0, 0] = 1 := by
    unfold stepsSpec
    rw [show List.range' 1 (([(0:ℝ), 2, 0, 0]).length - 2) = [1, 2] from rfl]
    have h1 : stepIndexSpec [(0:ℝ), 2, 0, 0] 1 := by
      unfold stepIndexSpec
      refine ⟨?_, ?_, ?_, ?_⟩
      · show (2:ℝ) > listMean [(0:ℝ), 2, 0, 0] +
          0.5 * Real.sqrt (popVar [(0:ℝ), 2, 0, 0])
        rw [hmB]
        linarith
      · show (2:ℝ) > (0:ℝ)
        norm_num
      · show (2:ℝ) > (0:ℝ)
        norm_num
      · show (0:ℝ) ≤ listMean [(0:ℝ), 2, 0, 0] +
          0.5 * Real.sqrt (popVar [(0:ℝ), 2, 0, 0])
        rw [hmB]
        linarith
    have h2 : ¬ stepIndexSpec [(0:ℝ), 2, 0, 0] 2 := by
      intro hc
      have h0 : ([(0:ℝ), 2, 0, 0]).getD 2 0 > listMean [(0:ℝ), 2, 0, 0] +
          0.5 * Real.sqrt (popVar [(0:ℝ), 2, 0, 0]) := hc.1
      have hj0 : ([(0:ℝ), 2, 0, 0]).getD 2 0 = 0 := rfl
      rw [hj0, hmB] at h0
      linarith
    have e1 := decide_eq_true h1
    have e2 := decide_eq_false h2
    simp [List.filter_cons, e1, e2]
  refine ⟨by rw [hmagA, hstepsA], by rw [hmagA, hspecA], ?_, ?_, by rw [hmagB, hstepsB],
    by rw [hmagB, hspecB], ?_, ?_⟩
  · unfold analyzeGaitCadence
    rw [hmagA, hstepsA]
    norm_num
  · unfold cadenceSpec
    rw [hmagA, hspecA]
    norm_num
  · unfold analyzeGaitCadence
    rw [hmagB, hstepsB]
    norm_num
  · unfold cadenceSpec
    rw [hmagB, hspecB]
    norm_num

/-- Counterexample to C1 as stated: on the all-zero window of length 6 the
FOG intensity returned by `analyze` is not `0` (it is `1`). -/
theorem zero_window_claim_counterexample :
    ¬ ((analyze ⟨0, 0, 0⟩ (List.replicate 6 (0:ℝ)) (List.replicate 6 0) (List.replicate 6 0)
        (List.replicate 6 0) (List.replicate 6 0)
          (List.replicate 6 0)).1.fogIntensity = 0) := by
  unfold analyze
  dsimp only
  rw [mag3_replicate_zero, calculateFOGIntensity_replicate_zero]
  norm_num

end
